import Mathlib

/-!
Shallow embedding of `src/biogtr/datasets/cell_tracking_dataset.py`
(`CellTrackingDataset.get_instances`) together with the parts of its data
model needed to verify the specification claims.

Modelling conventions:
* a decoded image is a `Grid`, a list of pixel rows with natural-number
  pixel values (raw images are 8- or 16-bit, label images hold track ids);
* a file on disk is `Option Grid` / `Option RawImg`: `none` stands for a
  missing or unreadable path, so `Image.open` failures become `Except`
  errors;
* the float arithmetic of the rescale step and of the region centroid is
  carried out exactly in `ℚ`; Python's `int()` on these nonnegative means
  truncates, which coincides with integer division of the coordinate sum
  by the pixel count (proved below via `Rat.floor_natCast_div_natCast`);
* `random.randint(0, 255)` draws are modelled by an explicit stream of
  naturals consumed by the call, and the albumentations pipeline
  application (external library) is an explicit function parameter
  `AugApply` that receives the image and the keypoint list and may drop
  keypoints;
* the mutable `self.augmentations` pipeline is threaded through the call
  and returned, so state mutation performed by `get_instances` is
  observable in the result.
-/

namespace CellTracking

/-- A decoded 2-D image: a list of pixel rows. -/
abbrev Grid := List (List Nat)

/-- All pixel values of a grid (row-major). -/
def gridVals (g : Grid) : List Nat := g.flatten

/-- Numpy `img.max()` for a flattened grid (0 on the empty grid). -/
def gridMax (g : Grid) : Nat := (gridVals g).foldl max 0

/-- Numpy `img.min()` for a flattened grid (0 on the empty grid). -/
def gridMin (g : Grid) : Nat :=
  match gridVals g with
  | [] => 0
  | v :: vs => vs.foldl min v

/-- The divisor `img.max() - img.min()` of the 16-bit rescale step
(uint16 subtraction; the maximum dominates the minimum). -/
def rescaleDivisor (g : Grid) : Nat := gridMax g - gridMin g

/-- The per-pixel affine map `(v - img.min()) * (1 / (img.max() - img.min()) * 255)`
of the 16-bit rescale step, carried out exactly in `ℚ`. -/
def rescalePre (g : Grid) (v : Nat) : ℚ :=
  ((v : ℚ) - (gridMin g : ℚ)) * (1 / (rescaleDivisor g : ℚ) * 255)

/-- The 16-bit depth-rescale step: apply `rescalePre` to every pixel and
truncate to an 8-bit integer (`astype(np.uint8)`; the values are
nonnegative for in-range pixels, so truncation is the floor). -/
def rescale16 (g : Grid) : Grid :=
  g.map fun row => row.map fun v => (⌊rescalePre g v⌋).toNat

/-- A bounding box, stored as `[y1, x1, y2, x2]` bounds. -/
structure BBox where
  y1 : Int
  x1 : Int
  y2 : Int
  x2 : Int
deriving DecidableEq

/-- Modelled from the spec: `data_utils.get_bbox` is not under `src/`.
"Compute a square bounding box of side `crop_size` centered at the
centroid (rounded to integer pixel coordinates)". -/
def get_bbox (cx cy : Int) (size : Nat) : BBox :=
  { y1 := cy - (size : Int) / 2
    x1 := cx - (size : Int) / 2
    y2 := cy - (size : Int) / 2 + size
    x2 := cx - (size : Int) / 2 + size }

/-- Modelled from the spec: `data_utils.pad_bbox` is not under `src/`.
"then expand it by `padding` pixels on each side". -/
def pad_bbox (b : BBox) (padding : Nat) : BBox :=
  { y1 := b.y1 - padding
    x1 := b.x1 - padding
    y2 := b.y2 + padding
    x2 := b.x2 + padding }

/-- Pixel lookup used by the crop: coordinates outside the image bounds
yield the deterministic fill value 0. -/
def getPixel (img : Grid) (y x : Int) : Nat :=
  if 0 ≤ y ∧ 0 ≤ x then (img.getD y.toNat []).getD x.toNat 0 else 0

/-- Modelled from the spec: `data_utils.crop_bbox` is not under `src/`.
"Crop a fixed-size patch from the (possibly augmented) raw image at each
retained object's bounding box; pad with a deterministic fill value if the
box extends past image bounds". -/
def crop_bbox (img : Grid) (b : BBox) : Grid :=
  (List.range (b.y2 - b.y1).toNat).map fun (r : Nat) =>
    (List.range (b.x2 - b.x1).toNat).map fun (c : Nat) =>
      getPixel img (b.y1 + (r : Int)) (b.x1 + (c : Int))

/-- Coordinates (from column `c0`, row `r`) of the pixels of one row that
carry the value `id`. -/
def rowPixelsFrom (row : List Nat) (id r c0 : Nat) : List (Nat × Nat) :=
  match row with
  | [] => []
  | v :: vs =>
    (if v = id then [(r, c0)] else []) ++ rowPixelsFrom vs id r (c0 + 1)

/-- Coordinates (rows numbered from `r0`) of the pixels of a grid that
carry the value `id`. -/
def maskPixelsFrom (g : Grid) (id r0 : Nat) : List (Nat × Nat) :=
  match g with
  | [] => []
  | row :: rest => rowPixelsFrom row id r0 0 ++ maskPixelsFrom rest id (r0 + 1)

/-- The `(row, column)` coordinates of the pixels equal to `id`
(the mask `gt_sec == instance`). -/
def maskPixels (g : Grid) (id : Nat) : List (Nat × Nat) := maskPixelsFrom g id 0

/-- The scipy `measurements.center_of_mass` of the boolean mask:
the mean `(row, column)` position of the pixels equal to `id`. -/
def centerOfMass (g : Grid) (id : Nat) : ℚ × ℚ :=
  let ps := maskPixels g id
  (((ps.map fun p => (p.1 : ℚ)).sum) / (ps.length : ℚ),
   ((ps.map fun p => (p.2 : ℚ)).sum) / (ps.length : ℚ))

/-- Distinct pixel values of the label image (`np.unique(gt_sec)`) in
ascending order. -/
def npUnique (g : Grid) : List Nat :=
  ((gridVals g).dedup).insertionSort (· ≤ ·)

/-- First-occurrence deduplication with an accumulator of already seen
values. -/
def pdUniqueAux : List Nat → List Nat → List Nat
  | [], _ => []
  | x :: xs, seen =>
    if x ∈ seen then pdUniqueAux xs seen else x :: pdUniqueAux xs (x :: seen)

/-- The `pandas.Series.unique` view of the `track_id` column: distinct values in
order of first occurrence. -/
def pdUnique (l : List Nat) : List Nat := pdUniqueAux l []

/-- The candidate track-id list of a frame: `np.unique(gt_sec)` when no
track table was supplied, the distinct `track_id` entries of the table
otherwise. -/
def uniqueInstances (gtl : Option (List Nat)) (gt_sec : Grid) : List Nat :=
  match gtl with
  | none => npUnique gt_sec
  | some tbl => pdUnique tbl

/-- One entry of the parallel `gt_track_ids` / `centroids` / `bboxes`
lists accumulated per candidate id. -/
structure PendObj where
  id : Nat
  centroid : ℚ × ℚ
  bbox : BBox
deriving DecidableEq

/-- Build one pending object for a candidate id: `scipy` returns the
centroid as `(y, x)`, the code reverses it to `(x, y)`; `int()` on the
nonnegative mean truncates, i.e. divides the coordinate sum by the pixel
count; the box is `pad_bbox(get_bbox([int(x), int(y)], crop_size), padding)`. -/
def mkPend (cs pad : Nat) (g : Grid) (inst : Nat) : PendObj :=
  let ps := maskPixels g inst
  let n := ps.length
  let sumR : Nat := (ps.map fun p => p.1).sum
  let sumC : Nat := (ps.map fun p => p.2).sum
  let xi : Nat := sumC / n
  let yi : Nat := sumR / n
  { id := inst
    centroid := ((sumC : ℚ) / (n : ℚ), (sumR : ℚ) / (n : ℚ))
    bbox := pad_bbox (get_bbox (xi : Int) (yi : Int) cs) pad }

/-- One transform of the built augmentation pipeline.  `fill_value` is the
mutable `CoarseDropout` fill intensity; `params` stands for the remaining
construction-time parameters of the transform. -/
structure Transform where
  isCoarseDropout : Bool
  fill_value : Nat
  params : Nat
deriving DecidableEq

/-- A raw image file: its decoded grid and whether its dtype is
`np.uint16`. -/
structure RawImg where
  isUint16 : Bool
  grid : Grid
deriving DecidableEq

/-- The `biogtr.data_structures.Instance` fields used here: ground-truth track id,
the unassigned predicted id sentinel `-1`, the bounding box, the crop. -/
structure Instance where
  gt_track_id : Nat
  pred_track_id : Int
  bbox : BBox
  crop : Grid
deriving DecidableEq

/-- The `biogtr.data_structures.Frame` fields used here: owning video index, frame
id, shape of the (channel-expanded) raw image, and the instance list. -/
structure Frame where
  video_id : Nat
  frame_id : Nat
  img_shape : List Nat
  instances : List Instance
deriving DecidableEq

/-- The fields of `CellTrackingDataset` read by `get_instances`.  A video
is a list of per-frame files (`none` = missing/unreadable path). -/
structure CellTrackingDataset where
  videos : List (List (Option RawImg))
  labels : List (List (Option Grid))
  crop_size : Nat
  padding : Nat
  gt_list : Option (List Nat)
  augmentations : Option (List Transform)

/-- The external albumentations pipeline application: given the (mutated)
transform list, the image and the keypoint list, produce the augmented
image and the retained keypoints (keypoints may be dropped). -/
abbrev AugApply := List Transform → Grid → List (ℚ × ℚ) → Grid × List (ℚ × ℚ)

/-- Errors with which a `get_instances` call aborts. -/
inductive DsErr where
  | indexError
  | fileAccess
  | augError
deriving DecidableEq

/-- The candidate loop of `get_instances`: for each candidate id present
as a nonzero pixel value of the label image, accumulate one pending
object (track id, `(x, y)` centroid, padded box). -/
def pendingObjects (ds : CellTrackingDataset) (gt_sec : Grid) : List PendObj :=
  (uniqueInstances ds.gt_list gt_sec).filterMap fun inst =>
    if inst ∈ gridVals gt_sec ∧ inst ≠ 0 then
      some (mkPend ds.crop_size ds.padding gt_sec inst)
    else none

/-- The per-frame fill-value re-draw: each `CoarseDropout` transform gets
`random.randint(0, 255)` assigned to its `fill_value`, consuming one draw
from the stream; other transforms are untouched. -/
def mutateTransforms : List Transform → List Nat → List Transform × List Nat
  | [], rng => ([], rng)
  | t :: ts, rng =>
    if t.isCoarseDropout then
      let p := mutateTransforms ts rng.tail
      ({ t with fill_value := rng.headD 0 % 256 } :: p.1, p.2)
    else
      let p := mutateTransforms ts rng
      (t :: p.1, p.2)

/-- The shape `img.shape` after `torch.Tensor(img).unsqueeze(0)`. -/
def gridShape (g : Grid) : List Nat := [1, g.length, (g.headD []).length]

/-- The crop loop `for i in range(len(gt_track_ids))`: one `Instance` per
pending object, cropping the (possibly augmented) image at the pending
box computed before augmentation. -/
def mkInstances (img : Grid) (pend : List PendObj) : List Instance :=
  pend.map fun e =>
    { gt_track_id := e.id
      pred_track_id := -1
      bbox := e.bbox
      crop := crop_bbox img e.bbox }

/-- Process one frame of the requested list.  Returns the built `Frame`
together with the new pipeline state and the remaining random stream.
The `frame_id` field reproduces the source faithfully: the inner crop
loop reuses the loop variable `i`, so after a nonempty instance list the
frame is recorded with `len(gt_track_ids) - 1` instead of the frame
index.  An empty centroid list under augmentation reproduces the
`np.vstack([])` failure. -/
def processFrame (ds : CellTrackingDataset) (applyAug : AugApply)
    (augs : Option (List Transform)) (rng : List Nat) (label_idx fi : Nat)
    (raw : RawImg) (gt_sec : Grid) :
    Except DsErr (Frame × Option (List Transform) × List Nat) :=
  let img0 := if raw.isUint16 then rescale16 raw.grid else raw.grid
  let pend := pendingObjects ds gt_sec
  let frameId := if pend.length > 0 then pend.length - 1 else fi
  match augs with
  | some ts =>
    let p := mutateTransforms ts rng
    if pend.isEmpty then .error .augError
    else
      let img1 := (applyAug p.1 img0 (pend.map fun e => e.centroid)).1
      .ok ({ video_id := label_idx, frame_id := frameId,
             img_shape := gridShape img1, instances := mkInstances img1 pend },
           some p.1, p.2)
  | none =>
    .ok ({ video_id := label_idx, frame_id := frameId,
           img_shape := gridShape img0, instances := mkInstances img0 pend },
         none, rng)

/-- Open the raw and label files of one frame index; a missing list entry
is an index error, a `none` file is an unreadable path. -/
def loadFrame (image : List (Option RawImg)) (gtImgs : List (Option Grid))
    (fi : Nat) : Except DsErr (RawImg × Grid) :=
  match image[fi]?, gtImgs[fi]? with
  | none, _ => .error .indexError
  | some _, none => .error .indexError
  | some none, some _ => .error .fileAccess
  | some (some _), some none => .error .fileAccess
  | some (some raw), some (some gt_sec) => .ok (raw, gt_sec)

/-- The frame loop of `get_instances`: process the requested frame
indices in order, threading the pipeline state and the random stream; the
first failure aborts the whole call. -/
def getInstancesGo (ds : CellTrackingDataset) (applyAug : AugApply)
    (image : List (Option RawImg)) (gtImgs : List (Option Grid))
    (label_idx : Nat) :
    List Nat → Option (List Transform) → List Nat →
      Except DsErr (List Frame × Option (List Transform) × List Nat)
  | [], augs, rng => .ok ([], augs, rng)
  | fi :: rest, augs, rng =>
    match loadFrame image gtImgs fi with
    | .error e => .error e
    | .ok (raw, gt_sec) =>
      match processFrame ds applyAug augs rng label_idx fi raw gt_sec with
      | .error e => .error e
      | .ok (fr, augs2, rng2) =>
        match getInstancesGo ds applyAug image gtImgs label_idx rest augs2 rng2 with
        | .error e => .error e
        | .ok (frs, augs3, rng3) => .ok (fr :: frs, augs3, rng3)

/-- The operation `CellTrackingDataset.get_instances(label_idx, frame_idx)`.  The result
carries the frame list together with the final pipeline state and random
stream. -/
def get_instances (ds : CellTrackingDataset) (applyAug : AugApply)
    (rng : List Nat) (label_idx : Nat) (frame_idx : List Nat) :
    Except DsErr (List Frame × Option (List Transform) × List Nat) :=
  match ds.videos[label_idx]?, ds.labels[label_idx]? with
  | some image, some gtImgs =>
    getInstancesGo ds applyAug image gtImgs label_idx frame_idx
      ds.augmentations rng
  | _, _ => .error .indexError

/-- The frame list a caller observes from `get_instances`. -/
def getFrames (ds : CellTrackingDataset) (applyAug : AugApply)
    (rng : List Nat) (label_idx : Nat) (frame_idx : List Nat) :
    Except DsErr (List Frame) :=
  (get_instances ds applyAug rng label_idx frame_idx).map fun r => r.1

/-! Concrete fixtures used by the counterexamples and witnesses. -/

/-- Identity pipeline application: returns the image and all keypoints. -/
def augId : AugApply := fun _ img kps => (img, kps)

/-- Pipeline application whose spatial transform drops every keypoint but
the first (a centroid moved outside the valid volume is removed). -/
def augDropTail : AugApply := fun _ img kps => (img, kps.take 1)

/-- A non-`CoarseDropout` transform. -/
def tOther : Transform := ⟨false, 0, 1⟩

/-- A `CoarseDropout` transform with fill value 0. -/
def tCoarse : Transform := ⟨true, 0, 42⟩

/-- One video of three frames; only frame 2 is readable and its label
image holds a single object (track id 7). -/
def dsShadow : CellTrackingDataset :=
  { videos := [[none, none, some ⟨false, [[1, 2], [3, 4]]⟩]]
    labels := [[none, none, some [[0, 0], [0, 7]]]]
    crop_size := 4
    padding := 1
    gt_list := none
    augmentations := none }

/-- One frame with two objects (ids 1 and 2) and one configured
non-`CoarseDropout` transform. -/
def dsDrop : CellTrackingDataset :=
  { videos := [[some ⟨false, [[1, 2]]⟩]]
    labels := [[some [[1, 2]]]]
    crop_size := 2
    padding := 0
    gt_list := none
    augmentations := some [tOther] }

/-- One frame with one object and one configured `CoarseDropout`
transform. -/
def dsMut : CellTrackingDataset :=
  { videos := [[some ⟨false, [[5]]⟩]]
    labels := [[some [[5]]]]
    crop_size := 1
    padding := 0
    gt_list := none
    augmentations := some [tCoarse] }

/-- A track table listing only id 1 while the label image holds the
nonzero pixel values 1 and 2. -/
def dsTable : CellTrackingDataset :=
  { videos := [[some ⟨false, [[0, 0]]⟩]]
    labels := [[some [[1, 2]]]]
    crop_size := 1
    padding := 0
    gt_list := some [1]
    augmentations := none }

/-- The per-transform mutation contract: a call preserves the transform
kind and the non-fill parameters, and returns every transform that is not
`CoarseDropout` unchanged (only the `fill_value` of a `CoarseDropout`
transform may change). -/
def tfSimilar (t t' : Transform) : Prop :=
  t'.isCoarseDropout = t.isCoarseDropout ∧ t'.params = t.params ∧
    (t.isCoarseDropout = false → t' = t)

/-- The pipeline-state mutation contract of a call: no pipeline stays no
pipeline, and a configured pipeline keeps its length with each transform
related by `tfSimilar` to the original. -/
def augSimilar : Option (List Transform) → Option (List Transform) → Prop
  | none, none => True
  | some ts, some ts' => List.Forall₂ tfSimilar ts ts'
  | _, _ => False

/-- One readable frame holding the single object 5, no augmentation. -/
def dsPlain : CellTrackingDataset :=
  { videos := [[some ⟨false, [[5]]⟩]]
    labels := [[some [[5]]]]
    crop_size := 1
    padding := 0
    gt_list := none
    augmentations := none }

/-- The frame record built from the single frame of `dsPlain`. -/
def framePlain : Frame := ⟨0, 0, [1, 1, 1], [⟨5, -1, ⟨0, 0, 1, 1⟩, [[5]]⟩]⟩

/-- The full result of `get_instances` on `dsPlain`. -/
def resPlain : List Frame × Option (List Transform) × List Nat :=
  ([framePlain], none, [])

/-- The result of `processFrame` on the single frame of `dsPlain`. -/
def outPlain : Frame × Option (List Transform) × List Nat :=
  (framePlain, none, [])

/-- The full result of `get_instances` on `dsMut` with random stream `[7]`:
the same frame as `dsPlain` (the identity pipeline leaves the image
unchanged) and the mutated pipeline state. -/
def resMut : List Frame × Option (List Transform) × List Nat :=
  ([framePlain], some [⟨true, 7, 42⟩], [])

/-- The pending object of the label image `[[0, 5]]` under `dsPlain`. -/
def ePlain : PendObj := mkPend dsPlain.crop_size dsPlain.padding [[0, 5]] 5

/-- One video whose only raw and label files are unreadable. -/
def dsMissing : CellTrackingDataset :=
  { videos := [[none]]
    labels := [[none]]
    crop_size := 1
    padding := 0
    gt_list := none
    augmentations := none }

/-! Helper lemmas about the embedded operations. -/

theorem rowPixelsFrom_ne_nil {row : List Nat} {id : Nat} (h : id ∈ row) :
    ∀ r c0, rowPixelsFrom row id r c0 ≠ [] := by
  induction row with
  | nil => cases h
  | cons v vs ih =>
    intro r c0
    rcases List.mem_cons.mp h with h1 | h2
    · subst h1
      simp [rowPixelsFrom]
    · simp only [rowPixelsFrom, ne_eq, List.append_eq_nil]
      intro hx
      exact ih h2 r (c0 + 1) hx.2

theorem gridVals_cons (row : List Nat) (rest : Grid) :
    gridVals (row :: rest) = row ++ gridVals rest := rfl

theorem maskPixelsFrom_ne_nil {g : Grid} {id : Nat} (h : id ∈ gridVals g) :
    ∀ r0, maskPixelsFrom g id r0 ≠ [] := by
  induction g with
  | nil => simp [gridVals] at h
  | cons row rest ih =>
    intro r0
    rw [gridVals_cons] at h
    simp only [maskPixelsFrom, ne_eq, List.append_eq_nil]
    intro hx
    rcases List.mem_append.mp h with h1 | h1
    · exact rowPixelsFrom_ne_nil h1 r0 0 hx.1
    · exact ih h1 (r0 + 1) hx.2

theorem maskPixels_ne_nil {g : Grid} {id : Nat} (h : id ∈ gridVals g) :
    maskPixels g id ≠ [] :=
  maskPixelsFrom_ne_nil h 0

theorem mem_pdUniqueAux {y : Nat} :
    ∀ l seen : List Nat, y ∈ pdUniqueAux l seen ↔ y ∈ l ∧ y ∉ seen := by
  intro l
  induction l with
  | nil => intro seen; simp [pdUniqueAux]
  | cons x xs ih =>
    intro seen
    simp only [pdUniqueAux]
    by_cases hx : x ∈ seen
    · rw [if_pos hx, ih]
      simp only [List.mem_cons]
      constructor
      · rintro ⟨h1, h2⟩
        exact ⟨Or.inr h1, h2⟩
      · rintro ⟨h1 | h1, h2⟩
        · subst h1
          exact absurd hx h2
        · exact ⟨h1, h2⟩
    · rw [if_neg hx]
      simp only [List.mem_cons, ih, List.mem_cons, not_or]
      constructor
      · rintro (rfl | ⟨h1, h2⟩)
        · exact ⟨Or.inl rfl, hx⟩
        · exact ⟨Or.inr h1, h2.2⟩
      · rintro ⟨h1 | h1, h2⟩
        · exact Or.inl h1
        · by_cases hyx : y = x
          · exact Or.inl hyx
          · exact Or.inr ⟨h1, hyx, h2⟩

theorem pdUniqueAux_nodup : ∀ l seen : List Nat, (pdUniqueAux l seen).Nodup := by
  intro l
  induction l with
  | nil => intro seen; simp [pdUniqueAux]
  | cons x xs ih =>
    intro seen
    simp only [pdUniqueAux]
    by_cases hx : x ∈ seen
    · rw [if_pos hx]
      exact ih seen
    · rw [if_neg hx]
      refine List.nodup_cons.mpr ⟨?_, ih (x :: seen)⟩
      intro hmem
      rcases (mem_pdUniqueAux xs (x :: seen)).mp hmem with ⟨_, hns⟩
      exact hns (List.mem_cons_self x seen)

theorem mem_pdUnique {y : Nat} {l : List Nat} : y ∈ pdUnique l ↔ y ∈ l := by
  unfold pdUnique
  rw [mem_pdUniqueAux]
  simp

theorem pdUnique_nodup (l : List Nat) : (pdUnique l).Nodup :=
  pdUniqueAux_nodup l []

theorem npUnique_nodup (g : Grid) : (npUnique g).Nodup :=
  (List.perm_insertionSort (· ≤ ·) (gridVals g).dedup).symm.nodup
    (List.nodup_dedup _)

theorem mem_npUnique {v : Nat} {g : Grid} : v ∈ npUnique g ↔ v ∈ gridVals g := by
  unfold npUnique
  rw [(List.perm_insertionSort (· ≤ ·) (gridVals g).dedup).mem_iff,
    List.mem_dedup]

theorem uniqueInstances_nodup (gtl : Option (List Nat)) (g : Grid) :
    (uniqueInstances gtl g).Nodup := by
  cases gtl with
  | none => exact npUnique_nodup g
  | some tbl => exact pdUnique_nodup tbl

theorem mem_pendingObjects {ds : CellTrackingDataset} {g : Grid} {e : PendObj} :
    e ∈ pendingObjects ds g ↔
      ∃ t, t ∈ uniqueInstances ds.gt_list g ∧ (t ∈ gridVals g ∧ t ≠ 0) ∧
        e = mkPend ds.crop_size ds.padding g t := by
  unfold pendingObjects
  rw [List.mem_filterMap]
  constructor
  · rintro ⟨t, ht, hsome⟩
    by_cases hc : t ∈ gridVals g ∧ t ≠ 0
    · rw [if_pos hc] at hsome
      exact ⟨t, ht, hc, (Option.some_inj.mp hsome).symm⟩
    · rw [if_neg hc] at hsome
      cases hsome
  · rintro ⟨t, ht, hc, rfl⟩
    exact ⟨t, ht, by rw [if_pos hc]⟩

theorem pendingObjects_map_id (ds : CellTrackingDataset) (g : Grid) :
    (pendingObjects ds g).map (fun e => e.id)
      = (uniqueInstances ds.gt_list g).filter
          fun t => decide (t ∈ gridVals g) && decide (t ≠ 0) := by
  unfold pendingObjects
  induction uniqueInstances ds.gt_list g with
  | nil => rfl
  | cons t ts ih =>
    simp only [List.filterMap_cons, List.filter_cons]
    by_cases hc : t ∈ gridVals g ∧ t ≠ 0
    · rw [if_pos hc]
      have hb : (decide (t ∈ gridVals g) && decide (t ≠ 0)) = true := by
        simp [hc.1, hc.2]
      rw [hb]
      simpa [mkPend] using ih
    · rw [if_neg hc]
      have hb : (decide (t ∈ gridVals g) && decide (t ≠ 0)) = false := by
        by_cases h1 : t ∈ gridVals g
        · by_cases h2 : t ≠ 0
          · exact absurd ⟨h1, h2⟩ hc
          · simp [h2]
        · simp [h1]
      rw [hb]
      exact ih

theorem mkInstances_map_id (img : Grid) (pend : List PendObj) :
    (mkInstances img pend).map (fun i => i.gt_track_id) = pend.map fun e => e.id := by
  simp [mkInstances, List.map_map, Function.comp]

theorem mem_mkInstances {img : Grid} {pend : List PendObj} {inst : Instance} :
    inst ∈ mkInstances img pend ↔
      ∃ e ∈ pend, inst = ⟨e.id, -1, e.bbox, crop_bbox img e.bbox⟩ := by
  unfold mkInstances
  rw [List.mem_map]
  constructor
  · rintro ⟨e, he, rfl⟩
    exact ⟨e, he, rfl⟩
  · rintro ⟨e, he, rfl⟩
    exact ⟨e, he, rfl⟩

theorem tfSimilar_refl (t : Transform) : tfSimilar t t := ⟨rfl, rfl, fun _ => rfl⟩

theorem tfSimilar_trans {t1 t2 t3 : Transform}
    (h1 : tfSimilar t1 t2) (h2 : tfSimilar t2 t3) : tfSimilar t1 t3 := by
  obtain ⟨a1, b1, c1⟩ := h1
  obtain ⟨a2, b2, c2⟩ := h2
  refine ⟨a2.trans a1, b2.trans b1, fun h => ?_⟩
  have h2cd : t2.isCoarseDropout = false := by rw [a1, h]
  rw [c2 h2cd, c1 h]

theorem forall₂_tfSimilar_refl (ts : List Transform) :
    List.Forall₂ tfSimilar ts ts := by
  induction ts with
  | nil => exact List.Forall₂.nil
  | cons t ts ih => exact List.Forall₂.cons (tfSimilar_refl t) ih

theorem forall₂_tfSimilar_trans : ∀ {l1 l2 l3 : List Transform},
    List.Forall₂ tfSimilar l1 l2 → List.Forall₂ tfSimilar l2 l3 →
    List.Forall₂ tfSimilar l1 l3 := by
  intro l1 l2 l3 h1
  induction h1 generalizing l3 with
  | nil =>
    intro h2
    cases h2
    exact .nil
  | cons hab h1x ih =>
    intro h2
    cases h2 with
    | cons hbc h2x => exact .cons (tfSimilar_trans hab hbc) (ih h2x)

theorem augSimilar_refl : ∀ o : Option (List Transform), augSimilar o o
  | none => trivial
  | some ts => forall₂_tfSimilar_refl ts

theorem augSimilar_trans {o1 o2 o3 : Option (List Transform)}
    (h1 : augSimilar o1 o2) (h2 : augSimilar o2 o3) : augSimilar o1 o3 := by
  cases o1 with
  | none =>
    cases o2 with
    | none => exact h2
    | some ts2 => exact absurd h1 (by simp [augSimilar])
  | some ts1 =>
    cases o2 with
    | none => exact absurd h1 (by simp [augSimilar])
    | some ts2 =>
      cases o3 with
      | none => exact absurd h2 (by simp [augSimilar])
      | some ts3 =>
        exact forall₂_tfSimilar_trans h1 h2

theorem mutateTransforms_similar : ∀ (ts : List Transform) (rng : List Nat),
    List.Forall₂ tfSimilar ts (mutateTransforms ts rng).1 := by
  intro ts
  induction ts with
  | nil => intro rng; exact .nil
  | cons t ts ih =>
    intro rng
    simp only [mutateTransforms]
    by_cases ht : t.isCoarseDropout
    · rw [if_pos ht]
      exact .cons ⟨rfl, rfl, fun h => by rw [ht] at h; cases h⟩ (ih rng.tail)
    · rw [if_neg ht]
      exact .cons (tfSimilar_refl t) (ih rng)

theorem foldl_max_le_self : ∀ (l : List Nat) (a : Nat), a ≤ l.foldl max a := by
  intro l
  induction l with
  | nil => intro a; exact le_refl a
  | cons v vs ih => intro a; exact le_trans (le_max_left a v) (ih (max a v))

theorem le_foldl_max : ∀ (l : List Nat) (a : Nat), ∀ x ∈ l, x ≤ l.foldl max a := by
  intro l
  induction l with
  | nil => intro a x hx; cases hx
  | cons v vs ih =>
    intro a x hx
    rcases List.mem_cons.mp hx with rfl | h2
    · exact le_trans (le_max_right a x) (foldl_max_le_self vs (max a x))
    · exact ih (max a v) x h2

theorem foldl_min_le_self : ∀ (l : List Nat) (a : Nat), l.foldl min a ≤ a := by
  intro l
  induction l with
  | nil => intro a; exact le_refl a
  | cons v vs ih => intro a; exact le_trans (ih (min a v)) (min_le_left a v)

theorem foldl_min_le : ∀ (l : List Nat) (a : Nat), ∀ x ∈ l, l.foldl min a ≤ x := by
  intro l
  induction l with
  | nil => intro a x hx; cases hx
  | cons v vs ih =>
    intro a x hx
    rcases List.mem_cons.mp hx with rfl | h2
    · exact le_trans (foldl_min_le_self vs (min a x)) (min_le_right a x)
    · exact ih (min a v) x h2

theorem le_gridMax {g : Grid} {v : Nat} (h : v ∈ gridVals g) : v ≤ gridMax g :=
  le_foldl_max (gridVals g) 0 v h

theorem gridMin_le {g : Grid} {v : Nat} (h : v ∈ gridVals g) : gridMin g ≤ v := by
  unfold gridMin
  cases hgv : gridVals g with
  | nil => rw [hgv] at h; cases h
  | cons w ws =>
    rw [hgv] at h
    rcases List.mem_cons.mp h with rfl | h2
    · exact foldl_min_le_self ws v
    · exact foldl_min_le ws w v h2

theorem foldl_max_le_of_all {c : Nat} :
    ∀ (l : List Nat) (a : Nat), a ≤ c → (∀ v ∈ l, v ≤ c) → l.foldl max a ≤ c := by
  intro l
  induction l with
  | nil => intro a ha _; exact ha
  | cons v vs ih =>
    intro a ha hv
    exact ih (max a v) (max_le ha (hv v (List.mem_cons_self v vs)))
      fun w hw => hv w (List.mem_cons.mpr (Or.inr hw))

theorem le_foldl_min_of_all {c : Nat} :
    ∀ (l : List Nat) (a : Nat), c ≤ a → (∀ v ∈ l, c ≤ v) → c ≤ l.foldl min a := by
  intro l
  induction l with
  | nil => intro a ha _; exact ha
  | cons v vs ih =>
    intro a ha hv
    exact ih (min a v) (le_min ha (hv v (List.mem_cons_self v vs)))
      fun w hw => hv w (List.mem_cons.mpr (Or.inr hw))

theorem processFrame_noaug (ds : CellTrackingDataset) (a : AugApply)
    (rng : List Nat) (li fi : Nat) (raw : RawImg) (g : Grid) :
    processFrame ds a none rng li fi raw g =
      .ok (⟨li,
            (if (pendingObjects ds g).length > 0
              then (pendingObjects ds g).length - 1 else fi),
            gridShape (if raw.isUint16 then rescale16 raw.grid else raw.grid),
            mkInstances (if raw.isUint16 then rescale16 raw.grid else raw.grid)
              (pendingObjects ds g)⟩,
           none, rng) := rfl

theorem processFrame_ok_shape {ds : CellTrackingDataset} {a : AugApply}
    {augs : Option (List Transform)} {rng : List Nat} {li fi : Nat}
    {raw : RawImg} {g : Grid} {out}
    (h : processFrame ds a augs rng li fi raw g = .ok out) :
    ∃ img, out.1.instances = mkInstances img (pendingObjects ds g) := by
  cases augs with
  | none =>
    rw [processFrame_noaug] at h
    cases h
    exact ⟨_, rfl⟩
  | some ts =>
    simp only [processFrame] at h
    split at h
    · cases h
    · cases h
      exact ⟨_, rfl⟩

theorem processFrame_augSimilar {ds : CellTrackingDataset} {a : AugApply}
    {augs : Option (List Transform)} {rng : List Nat} {li fi : Nat}
    {raw : RawImg} {g : Grid} {out}
    (h : processFrame ds a augs rng li fi raw g = .ok out) :
    augSimilar augs out.2.1 := by
  cases augs with
  | none =>
    rw [processFrame_noaug] at h
    cases h
    trivial
  | some ts =>
    simp only [processFrame] at h
    split at h
    · cases h
    · cases h
      exact mutateTransforms_similar ts rng

theorem getInstancesGo_cons_ok {ds : CellTrackingDataset} {a : AugApply}
    {image : List (Option RawImg)} {gtImgs : List (Option Grid)} {li fi : Nat}
    {rest : List Nat} {augs : Option (List Transform)} {rng : List Nat} {res}
    (h : getInstancesGo ds a image gtImgs li (fi :: rest) augs rng = .ok res) :
    ∃ raw g out res2,
      loadFrame image gtImgs fi = .ok (raw, g) ∧
      processFrame ds a augs rng li fi raw g = .ok out ∧
      getInstancesGo ds a image gtImgs li rest out.2.1 out.2.2 = .ok res2 ∧
      res = (out.1 :: res2.1, res2.2) := by
  simp only [getInstancesGo] at h
  split at h
  · cases h
  · next raw g hl =>
    split at h
    · cases h
    · next fr augs2 rng2 hp =>
      split at h
      · cases h
      · next frs augs3 rng3 hr =>
        cases h
        exact ⟨raw, g, (fr, augs2, rng2), (frs, augs3, rng3), hl, hp, hr, rfl⟩

theorem getInstancesGo_length {ds : CellTrackingDataset} {a : AugApply}
    {image : List (Option RawImg)} {gtImgs : List (Option Grid)} {li : Nat} :
    ∀ (fis : List Nat) (augs : Option (List Transform)) (rng : List Nat) res,
      getInstancesGo ds a image gtImgs li fis augs rng = .ok res →
      res.1.length = fis.length := by
  intro fis
  induction fis with
  | nil =>
    intro augs rng res h
    simp only [getInstancesGo] at h
    cases h
    rfl
  | cons fi rest ih =>
    intro augs rng res h
    obtain ⟨raw, g, out, res2, _, _, hr, rfl⟩ := getInstancesGo_cons_ok h
    have := ih out.2.1 out.2.2 res2 hr
    simp [this]

theorem getInstancesGo_frames_shape {ds : CellTrackingDataset} {a : AugApply}
    {image : List (Option RawImg)} {gtImgs : List (Option Grid)} {li : Nat} :
    ∀ (fis : List Nat) (augs : Option (List Transform)) (rng : List Nat) res,
      getInstancesGo ds a image gtImgs li fis augs rng = .ok res →
      ∀ fr ∈ res.1, ∃ img g, fr.instances = mkInstances img (pendingObjects ds g) := by
  intro fis
  induction fis with
  | nil =>
    intro augs rng res h
    simp only [getInstancesGo] at h
    cases h
    intro fr hfr
    cases hfr
  | cons fi rest ih =>
    intro augs rng res h fr hfr
    obtain ⟨raw, g, out, res2, _, hp, hr, rfl⟩ := getInstancesGo_cons_ok h
    rcases List.mem_cons.mp hfr with rfl | h2
    · obtain ⟨img, hinst⟩ := processFrame_ok_shape hp
      exact ⟨img, g, hinst⟩
    · exact ih out.2.1 out.2.2 res2 hr fr h2

theorem getInstancesGo_augSimilar {ds : CellTrackingDataset} {a : AugApply}
    {image : List (Option RawImg)} {gtImgs : List (Option Grid)} {li : Nat} :
    ∀ (fis : List Nat) (augs : Option (List Transform)) (rng : List Nat) res,
      getInstancesGo ds a image gtImgs li fis augs rng = .ok res →
      augSimilar augs res.2.1 := by
  intro fis
  induction fis with
  | nil =>
    intro augs rng res h
    simp only [getInstancesGo] at h
    cases h
    exact augSimilar_refl augs
  | cons fi rest ih =>
    intro augs rng res h
    obtain ⟨raw, g, out, res2, _, hp, hr, rfl⟩ := getInstancesGo_cons_ok h
    exact augSimilar_trans (processFrame_augSimilar hp) (ih out.2.1 out.2.2 res2 hr)

theorem getInstancesGo_ok_loads {ds : CellTrackingDataset} {a : AugApply}
    {image : List (Option RawImg)} {gtImgs : List (Option Grid)} {li : Nat} :
    ∀ (fis : List Nat) (augs : Option (List Transform)) (rng : List Nat) res,
      getInstancesGo ds a image gtImgs li fis augs rng = .ok res →
      ∀ fi ∈ fis, ∃ raw g, loadFrame image gtImgs fi = .ok (raw, g) := by
  intro fis
  induction fis with
  | nil => intro _ _ _ _ fi hfi; cases hfi
  | cons f rest ih =>
    intro augs rng res h fi hfi
    obtain ⟨raw, g, out, res2, hl, _, hr, rfl⟩ := getInstancesGo_cons_ok h
    rcases List.mem_cons.mp hfi with rfl | h2
    · exact ⟨raw, g, hl⟩
    · exact ih out.2.1 out.2.2 res2 hr fi h2

theorem getInstancesGo_noaug_frames {ds : CellTrackingDataset}
    {image : List (Option RawImg)} {gtImgs : List (Option Grid)} {li : Nat} :
    ∀ (fis : List Nat) (a1 a2 : AugApply) (r1 r2 : List Nat),
      (getInstancesGo ds a1 image gtImgs li fis none r1).map (fun r => r.1)
        = (getInstancesGo ds a2 image gtImgs li fis none r2).map fun r => r.1 := by
  intro fis
  induction fis with
  | nil => intro a1 a2 r1 r2; rfl
  | cons fi rest ih =>
    intro a1 a2 r1 r2
    simp only [getInstancesGo]
    cases hl : loadFrame image gtImgs fi with
    | error e => rfl
    | ok lr =>
      obtain ⟨raw, g⟩ := lr
      dsimp only
      rw [processFrame_noaug, processFrame_noaug]
      dsimp only
      have H := ih a1 a2 r1 r2
      cases h1 : getInstancesGo ds a1 image gtImgs li rest none r1 with
      | error e1 =>
        cases h2 : getInstancesGo ds a2 image gtImgs li rest none r2 with
        | error e2 =>
          rw [h1, h2] at H
          simp only [Except.map] at H
          cases H
          rfl
        | ok o2 =>
          rw [h1, h2] at H
          simp only [Except.map] at H
          cases H
      | ok o1 =>
        cases h2 : getInstancesGo ds a2 image gtImgs li rest none r2 with
        | error e2 =>
          rw [h1, h2] at H
          simp only [Except.map] at H
          cases H
        | ok o2 =>
          rw [h1, h2] at H
          obtain ⟨frs1, a3, r3⟩ := o1
          obtain ⟨frs2, a4, r4⟩ := o2
          simp only [Except.map, Except.ok.injEq] at H
          dsimp only
          simp only [Except.map, Except.ok.injEq, List.cons.injEq]
          exact ⟨trivial, H⟩

theorem pendingObjects_bbox_dims {ds : CellTrackingDataset} {g : Grid} {e : PendObj}
    (he : e ∈ pendingObjects ds g) :
    e.bbox.y2 - e.bbox.y1 = (ds.crop_size : Int) + 2 * ds.padding ∧
    e.bbox.x2 - e.bbox.x1 = (ds.crop_size : Int) + 2 * ds.padding := by
  rcases mem_pendingObjects.mp he with ⟨t, _, _, rfl⟩
  simp only [mkPend, pad_bbox, get_bbox]
  constructor <;> ring

theorem crop_bbox_length (img : Grid) (b : BBox) :
    (crop_bbox img b).length = (b.y2 - b.y1).toNat ∧
    ∀ row ∈ crop_bbox img b, row.length = (b.x2 - b.x1).toNat := by
  constructor
  · simp only [crop_bbox, List.length_map, List.length_range]
  · intro row hrow
    rcases List.mem_map.mp hrow with ⟨r, _, rfl⟩
    simp only [List.length_map, List.length_range]

theorem cast_sum_map_fst (ps : List (Nat × Nat)) :
    (((ps.map fun p => p.1).sum : Nat) : ℚ) = (ps.map fun p => (p.1 : ℚ)).sum := by
  rw [Nat.cast_list_sum, List.map_map]
  rfl

theorem cast_sum_map_snd (ps : List (Nat × Nat)) :
    (((ps.map fun p => p.2).sum : Nat) : ℚ) = (ps.map fun p => (p.2 : ℚ)).sum := by
  rw [Nat.cast_list_sum, List.map_map]
  rfl

/-- C1: the spec says the k-th returned `Frame` holds the k-th requested
frame index.  Requesting frame 2 of `dsShadow` (whose label image holds
one object) returns a frame with `frame_id = 0`: the crop loop
`for i in range(len(gt_track_ids))` shadows the frame-index variable `i`,
so the record stores `len(gt_track_ids) - 1` instead of 2.  The video
index is recorded correctly. -/
theorem frame_id_overwritten_by_crop_loop :
    (getFrames dsShadow augId [] 0 [2]).map
        (fun frs => frs.map fun fr => (fr.video_id, fr.frame_id, fr.instances.length))
      = .ok [(0, 0, 1)] := rfl

/-- C2: two centroids enter the augmentation step, the pipeline retains
only one keypoint, yet the returned frame still holds two `Instance`
records — the crop loop iterates over the pre-augmentation
`gt_track_ids`/`bboxes` lists and the augmented keypoints are discarded
unused, so crops ARE produced for dropped centroids. -/
theorem crops_produced_for_dropped_centroid :
    ((pendingObjects dsDrop [[1, 2]]).map fun e => e.centroid).length = 2 ∧
    ((augDropTail [tOther] [[1, 2]]
        ((pendingObjects dsDrop [[1, 2]]).map fun e => e.centroid)).2.length = 1) ∧
    (getFrames dsDrop augDropTail [] 0 [0]).map
        (fun frs => frs.map fun fr => fr.instances.length) = .ok [2] :=
  ⟨rfl, rfl, rfl⟩

/-- C3 counterexample: the built augmentation pipeline is NOT identical
before and after a call.  With a `CoarseDropout` transform configured
(fill value 0) and a random draw of 7, the pipeline state after
`get_instances` carries fill value 7: `transform.fill_value =
random.randint(0, 255)` mutates the construction-time pipeline. -/
theorem pipeline_mutated_by_get_instances :
    (get_instances dsMut augId [7] 0 [0]).map (fun r => r.2.1)
        = .ok (some [⟨true, 7, 42⟩]) ∧
    dsMut.augmentations = some [⟨true, 0, 42⟩] ∧
    (⟨true, 7, 42⟩ : Transform) ≠ ⟨true, 0, 42⟩ :=
  ⟨rfl, rfl, by decide⟩

/-- C4 counterexample: with a track table supplied that lists only id 1,
a frame whose label image holds the nonzero pixel values 1 and 2 yields
an instance list with id 1 only — the distinct nonzero pixel value 2 gets
no `Object` instance, refuting "one instance per distinct nonzero pixel
value regardless of whether a track table is supplied". -/
theorem table_omits_present_pixel_id :
    (2 ∈ gridVals [[1, 2]] ∧ 2 ≠ 0) ∧
    (getFrames dsTable augId [] 0 [0]).map
        (fun frs => frs.map fun fr => fr.instances.map fun inst => inst.gt_track_id)
      = .ok [[1]] :=
  ⟨by decide, rfl⟩

/-- C3 amended: a call leaves the configured augmentation pipeline
unchanged except for the `fill_value` of `CoarseDropout` transforms,
which is overwritten with a fresh random draw on each processed frame;
the pipeline length, each transform's kind and non-fill parameters, and
every non-`CoarseDropout` transform survive unchanged, and a call without
a configured pipeline changes nothing. -/
theorem only_fill_value_mutated (ds : CellTrackingDataset) (a : AugApply)
    (rng : List Nat) (li : Nat) (fis : List Nat) (res)
    (h : get_instances ds a rng li fis = .ok res) :
    augSimilar ds.augmentations res.2.1 ∧
    (ds.augmentations = none → res.2.1 = none) := by
  have hsim : augSimilar ds.augmentations res.2.1 := by
    unfold get_instances at h
    split at h
    · exact getInstancesGo_augSimilar fis ds.augmentations rng res h
    · cases h
  refine ⟨hsim, fun hn => ?_⟩
  rw [hn] at hsim
  cases hres : res.2.1 with
  | none => rfl
  | some ts =>
    rw [hres] at hsim
    simp [augSimilar] at hsim

/-- Witness for C3's amended theorem at a concrete call. -/
theorem only_fill_value_mutated_w :
    get_instances dsMut augId [7] 0 [0] = .ok resMut ∧
    (augSimilar dsMut.augmentations resMut.2.1 ∧
      (dsMut.augmentations = none → resMut.2.1 = none)) :=
  ⟨rfl, only_fill_value_mutated dsMut augId [7] 0 [0] resMut rfl⟩

/-- C4 amended: for a frame processed without augmentation the instance
list holds exactly one `Instance` per candidate id (distinct nonzero
label pixel values when no track table is supplied, distinct table ids
otherwise) that occurs as a nonzero pixel value of the frame's label
image: the id list equals the filtered candidate list, is duplicate-free,
and an id is instantiated iff it is a candidate, occurs in the label
image, and is nonzero — in particular id 0 and candidate ids with zero
pixels are never instantiated, and a nonzero pixel value absent from a
supplied track table is not instantiated either. -/
theorem noaug_instances_characterized (ds : CellTrackingDataset) (a : AugApply)
    (rng : List Nat) (li fi : Nat) (raw : RawImg) (g : Grid) (out)
    (h : processFrame ds a none rng li fi raw g = .ok out) :
    ((out.1.instances.map fun inst => inst.gt_track_id)
        = (uniqueInstances ds.gt_list g).filter
            fun t => decide (t ∈ gridVals g) && decide (t ≠ 0)) ∧
    (out.1.instances.map fun inst => inst.gt_track_id).Nodup ∧
    ∀ t : Nat, (t ∈ out.1.instances.map fun inst => inst.gt_track_id) ↔
      (t ∈ uniqueInstances ds.gt_list g ∧ t ∈ gridVals g ∧ t ≠ 0) := by
  rw [processFrame_noaug] at h
  cases h
  dsimp only
  rw [mkInstances_map_id, pendingObjects_map_id]
  refine ⟨rfl, List.Nodup.filter _ (uniqueInstances_nodup ds.gt_list g),
    fun t => ?_⟩
  rw [List.mem_filter]
  simp [Bool.and_eq_true, decide_eq_true_eq, and_assoc]

/-- Witness for C4's amended theorem at a concrete frame. -/
theorem noaug_instances_characterized_w :
    processFrame dsPlain augId none [] 0 0 ⟨false, [[5]]⟩ [[5]] = .ok outPlain ∧
    (((outPlain.1.instances.map fun inst => inst.gt_track_id)
        = (uniqueInstances dsPlain.gt_list [[5]]).filter
            fun t => decide (t ∈ gridVals [[5]]) && decide (t ≠ 0)) ∧
     (outPlain.1.instances.map fun inst => inst.gt_track_id).Nodup ∧
     ∀ t : Nat, (t ∈ outPlain.1.instances.map fun inst => inst.gt_track_id) ↔
       (t ∈ uniqueInstances dsPlain.gt_list [[5]] ∧ t ∈ gridVals [[5]] ∧ t ≠ 0)) :=
  ⟨rfl, noaug_instances_characterized dsPlain augId [] 0 0 ⟨false, [[5]]⟩ [[5]]
    outPlain rfl⟩

/-- C5: every crop of every `Instance` of every frame returned by
`get_instances` is a square of side `crop_size + 2 * padding`, and the
crop's pixel lookup fills every coordinate outside the image bounds with
the deterministic value 0 (so boxes extending past the bounds still
produce full-size crops). -/
theorem crop_dims_fixed (ds : CellTrackingDataset) (a : AugApply) (rng : List Nat)
    (li : Nat) (fis : List Nat) (res)
    (h : get_instances ds a rng li fis = .ok res) :
    (∀ fr ∈ res.1, ∀ inst ∈ fr.instances,
        inst.crop.length = ds.crop_size + 2 * ds.padding ∧
        ∀ row ∈ inst.crop, row.length = ds.crop_size + 2 * ds.padding) ∧
    (∀ (img : Grid) (y x : Int),
        (y < 0 ∨ x < 0 ∨ (img.length : Int) ≤ y ∨
          ((img.getD y.toNat []).length : Int) ≤ x) →
        getPixel img y x = 0) := by
  constructor
  · intro fr hfr inst hinst
    have hshape : ∃ img g, fr.instances = mkInstances img (pendingObjects ds g) := by
      unfold get_instances at h
      split at h
      · exact getInstancesGo_frames_shape fis ds.augmentations rng res h fr hfr
      · cases h
    obtain ⟨img, g, hinstances⟩ := hshape
    rw [hinstances] at hinst
    rcases mem_mkInstances.mp hinst with ⟨e, he, rfl⟩
    obtain ⟨hy, hx⟩ := pendingObjects_bbox_dims he
    obtain ⟨hlen, hrows⟩ := crop_bbox_length img e.bbox
    dsimp only
    constructor
    · rw [hlen, hy]
      omega
    · intro row hrow
      rw [hrows row hrow, hx]
      omega
  · intro img y x hcond
    unfold getPixel
    by_cases hyx : 0 ≤ y ∧ 0 ≤ x
    · rw [if_pos hyx]
      rcases hcond with hy | hx | hly | hlx
      · exact absurd hy (not_lt.mpr hyx.1)
      · exact absurd hx (not_lt.mpr hyx.2)
      · have hlen : img.length ≤ y.toNat := by omega
        rw [List.getD_eq_default _ _ hlen]
        simp
      · have hlen : (img.getD y.toNat []).length ≤ x.toNat := by omega
        exact List.getD_eq_default _ _ hlen
    · rw [if_neg hyx]

/-- Witness for C5 at a concrete call. -/
theorem crop_dims_fixed_w :
    get_instances dsPlain augId [] 0 [0] = .ok resPlain ∧
    ((∀ fr ∈ resPlain.1, ∀ inst ∈ fr.instances,
        inst.crop.length = dsPlain.crop_size + 2 * dsPlain.padding ∧
        ∀ row ∈ inst.crop, row.length = dsPlain.crop_size + 2 * dsPlain.padding) ∧
     (∀ (img : Grid) (y x : Int),
        (y < 0 ∨ x < 0 ∨ (img.length : Int) ≤ y ∨
          ((img.getD y.toNat []).length : Int) ≤ x) →
        getPixel img y x = 0)) :=
  ⟨rfl, crop_dims_fixed dsPlain augId [] 0 [0] resPlain rfl⟩

/-- C6: when the frame's observed minimum is strictly below its maximum,
the 16-bit depth-rescale map is an affine function of the original pixel
value with positive slope, computed from the frame's own minimum and
maximum, hence monotone; and every rescaled pixel value is at most 255
(pixel values are naturals, so 0 is a lower bound by construction). -/
theorem rescale_affine_and_bounded (g : Grid) (h : gridMin g < gridMax g) :
    (∃ a b : ℚ, 0 < a ∧ (∀ v : Nat, rescalePre g v = a * v + b) ∧
        ∀ v w : Nat, v ≤ w → rescalePre g v ≤ rescalePre g w) ∧
    ∀ row ∈ rescale16 g, ∀ p ∈ row, p ≤ 255 := by
  have hD : 0 < rescaleDivisor g := Nat.sub_pos_of_lt h
  have hDQ : (0 : ℚ) < (rescaleDivisor g : ℚ) := by exact_mod_cast hD
  have hapos : 0 < 1 / (rescaleDivisor g : ℚ) * 255 :=
    mul_pos (div_pos one_pos hDQ) (by norm_num)
  have haffine : ∀ v : Nat, rescalePre g v
      = (1 / (rescaleDivisor g : ℚ) * 255) * v
        + -((gridMin g : ℚ) * (1 / (rescaleDivisor g : ℚ) * 255)) := by
    intro v
    unfold rescalePre
    ring
  have hmono : ∀ v w : Nat, v ≤ w → rescalePre g v ≤ rescalePre g w := by
    intro v w hvw
    rw [haffine v, haffine w]
    have hc : (v : ℚ) ≤ (w : ℚ) := by exact_mod_cast hvw
    have := mul_le_mul_of_nonneg_left hc hapos.le
    linarith
  refine ⟨⟨_, _, hapos, haffine, hmono⟩, ?_⟩
  intro row hrow p hp
  rcases List.mem_map.mp hrow with ⟨row0, hrow0, rfl⟩
  rcases List.mem_map.mp hp with ⟨v, hv, rfl⟩
  have hvmem : v ∈ gridVals g := List.mem_flatten.mpr ⟨row0, hrow0, hv⟩
  have hvmax : (v : ℚ) ≤ (gridMax g : ℚ) := by exact_mod_cast le_gridMax hvmem
  have hcast : (rescaleDivisor g : ℚ) = (gridMax g : ℚ) - (gridMin g : ℚ) := by
    unfold rescaleDivisor
    exact_mod_cast Nat.cast_sub h.le
  have hle : rescalePre g v ≤ 255 := by
    unfold rescalePre
    have h1 : ((v : ℚ) - (gridMin g : ℚ)) ≤ (rescaleDivisor g : ℚ) := by
      rw [hcast]
      linarith
    have h2 := mul_le_mul_of_nonneg_right h1 hapos.le
    calc ((v : ℚ) - (gridMin g : ℚ)) * (1 / (rescaleDivisor g : ℚ) * 255)
        ≤ (rescaleDivisor g : ℚ) * (1 / (rescaleDivisor g : ℚ) * 255) := h2
      _ = 255 := by
          rw [← mul_assoc, mul_one_div_cancel hDQ.ne', one_mul]
  have hfloor : ⌊rescalePre g v⌋ ≤ (255 : ℤ) := by
    have := Int.floor_le_floor hle
    simpa using this
  exact Int.toNat_le.mpr (by exact_mod_cast hfloor)

/-- Witness for C6 at a concrete 16-bit frame. -/
theorem rescale_affine_and_bounded_w :
    gridMin [[0, 10]] < gridMax [[0, 10]] ∧
    ((∃ a b : ℚ, 0 < a ∧ (∀ v : Nat, rescalePre [[0, 10]] v = a * v + b) ∧
        ∀ v w : Nat, v ≤ w → rescalePre [[0, 10]] v ≤ rescalePre [[0, 10]] w) ∧
     ∀ row ∈ rescale16 [[0, 10]], ∀ p ∈ row, p ≤ 255) :=
  ⟨by decide, rescale_affine_and_bounded [[0, 10]] (by decide)⟩

/-- C7: without configured augmentation, the frame list observed from
`get_instances` does not depend on the random stream or on the pipeline
application, so two calls with identical arguments over unchanged files
return identical frame lists (same ids, same boxes, same crops). -/
theorem get_instances_deterministic_noaug (ds : CellTrackingDataset)
    (a1 a2 : AugApply) (r1 r2 : List Nat) (li : Nat) (fis : List Nat)
    (h : ds.augmentations = none) :
    getFrames ds a1 r1 li fis = getFrames ds a2 r2 li fis := by
  unfold getFrames get_instances
  rw [h]
  cases hv : ds.videos[li]? with
  | none => rfl
  | some image =>
    cases hg : ds.labels[li]? with
    | none => rfl
    | some gtImgs => exact getInstancesGo_noaug_frames fis a1 a2 r1 r2

/-- Witness for C7 at a concrete call with two different random streams
and pipeline applications. -/
theorem get_instances_deterministic_noaug_w :
    dsPlain.augmentations = none ∧
    getFrames dsPlain augId [1] 0 [0] = getFrames dsPlain augDropTail [2] 0 [0] :=
  ⟨rfl, get_instances_deterministic_noaug dsPlain augId augDropTail [1] [2] 0 [0] rfl⟩

/-- C8: every pending object's recorded centroid is the (x, y)-ordered
reversal of the `(row, column)` center of mass of the pixels carrying its
track id: the mask is nonempty, x times the pixel count equals the sum of
column indices, y times the pixel count equals the sum of row indices,
and the bounding box is computed from that (x, y) pair with each
coordinate truncated to an integer. -/
theorem centroid_is_swapped_pixel_mean (ds : CellTrackingDataset) (g : Grid)
    (e : PendObj) (he : e ∈ pendingObjects ds g) :
    maskPixels g e.id ≠ [] ∧
    e.centroid = ((centerOfMass g e.id).2, (centerOfMass g e.id).1) ∧
    e.centroid.1 * ((maskPixels g e.id).length : ℚ)
        = ((maskPixels g e.id).map fun p => (p.2 : ℚ)).sum ∧
    e.centroid.2 * ((maskPixels g e.id).length : ℚ)
        = ((maskPixels g e.id).map fun p => (p.1 : ℚ)).sum ∧
    e.bbox = pad_bbox (get_bbox ⌊e.centroid.1⌋ ⌊e.centroid.2⌋ ds.crop_size)
      ds.padding := by
  rcases mem_pendingObjects.mp he with ⟨t, _, ⟨htg, _⟩, rfl⟩
  have hne : maskPixels g t ≠ [] := maskPixels_ne_nil htg
  have hlen0 : (maskPixels g t).length ≠ 0 :=
    fun hl => hne (List.length_eq_zero.mp hl)
  have hlenQ : ((maskPixels g t).length : ℚ) ≠ 0 := Nat.cast_ne_zero.mpr hlen0
  dsimp only [mkPend, centerOfMass]
  refine ⟨hne, ?_, ?_, ?_, ?_⟩
  · rw [Prod.ext_iff]
    constructor
    · dsimp only
      rw [cast_sum_map_snd]
    · dsimp only
      rw [cast_sum_map_fst]
  · rw [cast_sum_map_snd]
    exact div_mul_cancel₀ _ hlenQ
  · rw [cast_sum_map_fst]
    exact div_mul_cancel₀ _ hlenQ
  · congr 2
    · rw [Rat.floor_natCast_div_natCast]
      exact Int.ofNat_ediv _ _
    · rw [Rat.floor_natCast_div_natCast]
      exact Int.ofNat_ediv _ _

/-- Witness for C8 at a concrete label image. -/
theorem centroid_is_swapped_pixel_mean_w :
    ePlain ∈ pendingObjects dsPlain [[0, 5]] ∧
    (maskPixels [[0, 5]] ePlain.id ≠ [] ∧
     ePlain.centroid
        = ((centerOfMass [[0, 5]] ePlain.id).2, (centerOfMass [[0, 5]] ePlain.id).1) ∧
     ePlain.centroid.1 * ((maskPixels [[0, 5]] ePlain.id).length : ℚ)
         = ((maskPixels [[0, 5]] ePlain.id).map fun p => (p.2 : ℚ)).sum ∧
     ePlain.centroid.2 * ((maskPixels [[0, 5]] ePlain.id).length : ℚ)
         = ((maskPixels [[0, 5]] ePlain.id).map fun p => (p.1 : ℚ)).sum ∧
     ePlain.bbox = pad_bbox
       (get_bbox ⌊ePlain.centroid.1⌋ ⌊ePlain.centroid.2⌋ dsPlain.crop_size)
       dsPlain.padding) :=
  ⟨List.mem_cons_self _ _,
    centroid_is_swapped_pixel_mean dsPlain [[0, 5]] ePlain (List.mem_cons_self _ _)⟩

/-- C9: a `get_instances` call either returns a complete frame list
covering every requested index, or aborts with a single error; a missing
or unreadable raw or label file at any requested frame forces the whole
call to return an error, so no partial frame list is ever observable. -/
theorem error_aborts_whole_call (ds : CellTrackingDataset) (a : AugApply)
    (rng : List Nat) (li : Nat) (fis : List Nat) :
    (∀ res, get_instances ds a rng li fis = .ok res → res.1.length = fis.length) ∧
    (∀ image gtImgs, ds.videos[li]? = some image → ds.labels[li]? = some gtImgs →
      ∀ fi ∈ fis, (∃ e0, loadFrame image gtImgs fi = .error e0) →
      ∃ e, get_instances ds a rng li fis = .error e) := by
  constructor
  · intro res h
    unfold get_instances at h
    split at h
    · exact getInstancesGo_length fis ds.augmentations rng res h
    · cases h
  · intro image gtImgs himg hgt fi hfi herr
    unfold get_instances
    rw [himg, hgt]
    dsimp only
    cases hres : getInstancesGo ds a image gtImgs li fis ds.augmentations rng with
    | error e => exact ⟨e, rfl⟩
    | ok res =>
      obtain ⟨raw, g2, hload⟩ :=
        getInstancesGo_ok_loads fis ds.augmentations rng res hres fi hfi
      rcases herr with ⟨e0, he0⟩
      rw [hload] at he0
      cases he0

/-- Witness for C9 at a concrete call with an unreadable file. -/
theorem error_aborts_whole_call_w :
    (0 ∈ [0]) ∧
    (∃ e0, loadFrame ([none] : List (Option RawImg))
      ([none] : List (Option Grid)) 0 = .error e0) ∧
    (∃ e, get_instances dsMissing augId [] 0 [0] = .error e) :=
  ⟨by decide, ⟨.fileAccess, rfl⟩,
    (error_aborts_whole_call dsMissing augId [] 0 [0]).2 [none] [none] rfl rfl 0
      (by decide) ⟨.fileAccess, rfl⟩⟩

/-- C10: on a constant-valued frame the divisor `img.max() - img.min()`
of the 16-bit rescale step is zero, so the unguarded scale factor
`1 / (img.max() - img.min()) * 255` is a division by zero (collapsing to
0 under the `ℚ` convention); the step is well-defined only when the
observed maximum strictly exceeds the observed minimum, which is the
hypothesis of the depth-rescale theorem. -/
theorem rescale_divisor_zero_on_constant (g : Grid) (c : Nat)
    (h : ∀ v ∈ gridVals g, v = c) :
    rescaleDivisor g = 0 ∧ (1 : ℚ) / (rescaleDivisor g : ℚ) * 255 = 0 := by
  have hmain : rescaleDivisor g = 0 := by
    unfold rescaleDivisor gridMax gridMin
    cases hgv : gridVals g with
    | nil => rfl
    | cons w ws =>
      rw [hgv] at h
      have hw : w = c := h w (List.mem_cons_self w ws)
      have hmax : (w :: ws).foldl max 0 ≤ c :=
        foldl_max_le_of_all _ 0 (Nat.zero_le c) fun v hv => le_of_eq (h v hv)
      have hmin : c ≤ ws.foldl min w :=
        le_foldl_min_of_all ws w (le_of_eq hw.symm)
          fun v hv => le_of_eq (h v (List.mem_cons.mpr (Or.inr hv))).symm
      dsimp only
      omega
  refine ⟨hmain, ?_⟩
  rw [hmain]
  norm_num

/-- Witness for C10 at a concrete constant frame. -/
theorem rescale_divisor_zero_on_constant_w :
    (∀ v ∈ gridVals [[3, 3]], v = 3) ∧
    (rescaleDivisor [[3, 3]] = 0 ∧
      (1 : ℚ) / (rescaleDivisor [[3, 3]] : ℚ) * 255 = 0) :=
  ⟨by decide, rescale_divisor_zero_on_constant [[3, 3]] 3 (by decide)⟩

end CellTracking
